import Mathlib

/-!
Shallow embedding of the dataset query logic of `src/latininscriptions.py`
(a Streamlit dashboard over a pandas dataframe of Latin inscriptions).

The dataframe is modelled as a list of column names together with a list of
rows; each cell is either missing (pandas `NaN`), a text value, or an integer.
The pandas one-liners of the source (boolean-mask filtering, `mode`,
`value_counts`, `to_csv`) are translated into executable Lean functions, with
the relevant pandas semantics reproduced explicitly:

* `DataFrame.astype(str)` renders a missing cell as the text `nan`;
* `Series.mode()` drops missing values and returns the tied most-frequent
  values sorted ascending, so `mode()[0]` is the least tied value;
* `Series.min()` / `Series.max()` skip missing values and yield `NaN` on an
  empty or all-missing column, so the surrounding `int(...)` raises;
* `Series.value_counts()` drops missing values and sorts by descending count
  (the order among tied counts is not fixed by the source; this embedding
  uses first-encountered order, which no theorem below depends on);
* `DataFrame.to_csv(index=False)` writes a header line first, then one line
  per row, minimally quoting fields and rendering missing cells as empty.
-/

/-- A single dataframe cell: missing (`NaN`), text, or integer. -/
inductive Val where
  | na : Val
  | str : String → Val
  | int : Int → Val
deriving DecidableEq, Repr

/-- Python `astype(str)` conversion of a cell: `NaN` becomes the literal text
`nan`; integers print as in Python. -/
def Val.toText : Val → String
  | Val.na => "nan"
  | Val.str s => s
  | Val.int n => toString n

/-- The in-memory dataset: ordered column names and ordered rows of cells,
cells addressed positionally by column index. -/
structure Dataset where
  cols : List String
  rows : List (List Val)
deriving DecidableEq, Repr

/-- Well-formedness: every row has one cell per column. -/
def Dataset.Wf (D : Dataset) : Prop :=
  ∀ r ∈ D.rows, r.length = D.cols.length

instance (D : Dataset) : Decidable D.Wf :=
  inferInstanceAs (Decidable (∀ r ∈ D.rows, r.length = D.cols.length))

/-- Index of a column name in a column list (`cols.get_loc` in pandas terms). -/
def colIdx (cols : List String) (f : String) : Nat :=
  cols.findIdx (fun c => c == f)

/-- The cell of row `r` in column `f` of a dataset with columns `cols`. -/
def cellAt (cols : List String) (r : List Val) (f : String) : Val :=
  r.getD (colIdx cols f) Val.na

/-- The column `f` of dataset `D` as a list of cells (`data[f]`). -/
def colValues (D : Dataset) (f : String) : List Val :=
  D.rows.map (fun r => cellAt D.cols r f)

/-- Non-missing text values of column `f`, in row order (what pandas
operations with `dropna` semantics see on a text column). -/
def strValues (D : Dataset) (f : String) : List String :=
  (colValues D f).filterMap (fun v =>
    match v with
    | Val.str s => some s
    | _ => none)

/-- Non-missing integer values of column `f`, in row order. -/
def intValues (D : Dataset) (f : String) : List Int :=
  (colValues D f).filterMap (fun v =>
    match v with
    | Val.int n => some n
    | _ => none)

/-- Substring test on character lists: `hasSubstr q s` holds when `q` occurs
contiguously inside `s`. -/
def hasSubstr (q : List Char) : List Char → Bool
  | [] => q.isEmpty
  | c :: t => q.isPrefixOf (c :: t) || hasSubstr q t

/-- Case-insensitive substring test on strings, the semantics of pandas
`str.contains(q, case=False)` for a pattern `q` free of regex
metacharacters. -/
def strContainsCI (hay q : String) : Bool :=
  hasSubstr (q.data.map Char.toLower) (hay.data.map Char.toLower)

/-- Characters that are special to the Python regex engine backing
`str.contains`. -/
def regexSpecials : List Char :=
  ['.', '^', '$', '*', '+', '?', '\x7b', '\x7d', '[', ']', '(', ')', '|', '\\']

/-- A query that the regex engine of `str.contains` treats as a literal
string: it mentions no regex metacharacter. -/
def regexLiteral (q : String) : Bool :=
  q.data.all (fun c => !(regexSpecials.contains c))

/-- Row-wise free-text match, source lines 158-161: after `astype(str)` each
cell is text (missing cells read `nan`), and the row matches when any cell
contains the query case-insensitively. -/
def rowMatchesText (q : String) (r : List Val) : Bool :=
  r.any (fun v => strContainsCI (Val.toText v) q)

/-- Free-text filter, source lines 156-162: an empty search box (falsy in
Python) leaves the data untouched, otherwise rows are kept by the
any-column substring mask. -/
def filterByText (D : Dataset) (q : String) : Dataset :=
  if q = "" then D
  else { cols := D.cols, rows := D.rows.filter (rowMatchesText q) }

/-- Predicate of the equality filter, source lines 164-168: the cell in
column `f` equals the selected string value. A missing cell compares
unequal to any string, as in pandas. -/
def fieldPred (cols : List String) (f v : String) (r : List Val) : Bool :=
  cellAt cols r f == Val.str v

/-- Per-field equality filter, source lines 164-168 generalized from the
`gender` / `age_category` instances: skipped when the selected value is the
`All` sentinel or the column is absent, otherwise exact equality. -/
def filterByField (D : Dataset) (f v : String) : Dataset :=
  if v ≠ "All" ∧ f ∈ D.cols then
    { cols := D.cols, rows := D.rows.filter (fieldPred D.cols f v) }
  else D

/-- Filter pipeline of the Search page, source lines 153-168: free-text
filter first, then the per-field equality filters in sequence. -/
def applyFilters (D : Dataset) (q : String) (fs : List (String × String)) : Dataset :=
  fs.foldl (fun acc fv => filterByField acc fv.1 fv.2) (filterByText D q)

/-- Distinct values of a list in order of first encounter (the value order
pandas reports for `unique`). -/
def dedupFirst : List String → List String
  | [] => []
  | x :: xs => x :: (dedupFirst xs).filter (fun y => y != x)

/-- The largest multiplicity any value attains in `l`. -/
def maxCount (l : List String) : Nat :=
  ((dedupFirst l).map (fun v => l.count v)).foldl max 0

/-- Lexicographic comparison of character lists by code point, the order
`np.sort` and Python string comparison use. -/
def lexLe : List Char → List Char → Bool
  | [], _ => true
  | _ :: _, [] => false
  | a :: s, b :: t =>
    if a.toNat < b.toNat then true
    else if b.toNat < a.toNat then false
    else lexLe s t

/-- Lexicographic code-point comparison of strings. -/
def strLe (a b : String) : Bool :=
  lexLe a.data b.data

/-- Pandas `Series.mode()`: the values of maximal multiplicity, sorted
ascending (pandas applies `np.sort` to the modes). -/
def modeSorted (l : List String) : List String :=
  List.insertionSort (fun a b => strLe a b = true)
    ((dedupFirst l).filter (fun v => l.count v == maxCount l))

/-- Most-common-gender metric, source lines 84-89:
`data['gender'].mode()[0]` when the column exists and the mode list is
non-empty, `N/A` otherwise. -/
def mostCommonGender (D : Dataset) : String :=
  if "gender" ∈ D.cols then
    match (modeSorted (strValues D "gender")).head? with
    | some m => m
    | none => "N/A"
  else "N/A"

/-- Time-span metric, source lines 77-82:
`f"{int(data['year'].min())} - {int(data['year'].max())}"` when the column
exists. Pandas `min` / `max` skip missing values and return `NaN` on an
empty or all-missing column, making `int(...)` raise `ValueError`; the
raise is modelled as `Except.error`. -/
def timeSpanMetric (D : Dataset) : Except String String :=
  if "year" ∈ D.cols then
    match (intValues D "year").min?, (intValues D "year").max? with
    | some lo, some hi => Except.ok (toString lo ++ " - " ++ toString hi)
    | _, _ => Except.error "cannot convert float NaN to integer"
  else Except.ok "N/A"

/-- Pandas `Series.value_counts()`, source lines 204, 238: multiplicity of
each distinct non-missing value, sorted by descending count. The relative
order of tied counts is not determined by the source (it falls out of
pandas hash-table iteration and an unstable sort); this embedding keeps
tied values in first-encountered order, and no theorem below depends on
that choice. -/
def valueCounts (D : Dataset) (f : String) : List (String × Nat) :=
  List.insertionSort (fun p q => q.2 ≤ p.2)
    ((dedupFirst (strValues D f)).map (fun v => (v, (strValues D f).count v)))

/-- Rounding to two decimal places, the `.round(2)` of source line 253,
over the rationals. -/
def round2 (x : ℚ) : ℚ :=
  (round (x * 100) : ℤ) / 100

/-- Percentage column of the case-statistics table, source lines 250-254:
`(case_counts.values / len(data) * 100).round(2)`. -/
def percentages (D : Dataset) (f : String) : List ℚ :=
  (valueCounts D f).map (fun p => round2 ((p.2 : ℚ) / (D.rows.length : ℚ) * 100))

/-- CSV rendering of a cell before quoting: pandas `to_csv` writes a missing
cell as the empty field. -/
def valCsv (v : Val) : List Char :=
  match v with
  | Val.na => []
  | Val.str s => s.data
  | Val.int n => (toString n).data

/-- A field needs quoting in minimal-quoting CSV when it holds a separator,
a quote, or a line break. -/
def needsQuote (s : List Char) : Bool :=
  s.any (fun c => c == ',' || c == '"' || c == '\n')

/-- Quote a CSV field: wrap in double quotes, doubling embedded quotes. -/
def quoteCsv (s : List Char) : List Char :=
  '"' :: (s.map (fun c => if c = '"' then ['"', '"'] else [c])).flatten ++ ['"']

/-- Minimal quoting of `to_csv`: a field is written verbatim unless it needs
quoting. -/
def csvField (s : List Char) : List Char :=
  if needsQuote s then quoteCsv s else s

/-- Join character lists with a separator character. -/
def intercalateChar (c : Char) : List (List Char) → List Char
  | [] => []
  | [x] => x
  | x :: xs => x ++ c :: intercalateChar c xs

/-- One CSV line: the quoted fields joined by commas. -/
def csvLine (fields : List (List Char)) : List Char :=
  intercalateChar ',' (fields.map csvField)

/-- The lines of `to_csv(index=False)`, source line 178: the header line of
column names first, then one line per row, no index column. -/
def csvLines (D : Dataset) : List (List Char) :=
  csvLine (D.cols.map String.data) :: D.rows.map (fun r => csvLine (r.map valCsv))

/-- The full CSV text of `filtered_data.to_csv(index=False)`: every line,
the header included, is terminated by a newline. -/
def toCsv (D : Dataset) : List Char :=
  ((csvLines D).map (fun l => l ++ ['\n'])).flatten

/-- Split a character list at every occurrence of `c` (the inverse reading
of the CSV serialization used to state round-trip facts). -/
def splitOnChar (c : Char) : List Char → List (List Char)
  | [] => [[]]
  | a :: t =>
    if a = c then [] :: splitOnChar c t
    else
      match splitOnChar c t with
      | [] => [[a]]
      | h :: r => (a :: h) :: r

/-- A CSV-plain character list: free of separators, quotes and line breaks,
so that it is written verbatim and parsed back unchanged. -/
def csvPlain (s : List Char) : Bool :=
  s.all (fun c => !(c == ',' || c == '"' || c == '\n'))

/-- Restatement of claim C3's matching clause in the words of the spec: a
row matches only on its non-missing cells. Used solely to exhibit where the
code diverges from that clause. -/
def rowMatchesTextSpec (q : String) (r : List Val) : Bool :=
  r.any (fun v =>
    match v with
    | Val.na => false
    | _ => strContainsCI (Val.toText v) q)

/-- Restatement of claim C1's tie-break in the words of the spec: the first
value encountered in row order among those of maximal frequency. Used
solely to exhibit where the code diverges from that clause. -/
def firstMaxByRowOrder (D : Dataset) : Option String :=
  (dedupFirst (strValues D "gender")).find?
    (fun v => (strValues D "gender").count v == maxCount (strValues D "gender"))

/-! ### Helper lemmas -/

theorem mem_dedupFirst {a : String} : ∀ {l : List String}, a ∈ dedupFirst l ↔ a ∈ l
  | [] => Iff.rfl
  | x :: xs => by
    simp only [dedupFirst, List.mem_cons, List.mem_filter, bne_iff_ne,
      mem_dedupFirst (l := xs)]
    constructor
    · rintro (rfl | ⟨h, _⟩)
      · exact Or.inl rfl
      · exact Or.inr h
    · rintro (rfl | h)
      · exact Or.inl rfl
      · by_cases hax : a = x
        · exact Or.inl hax
        · exact Or.inr ⟨h, hax⟩

theorem nodup_dedupFirst : ∀ (l : List String), (dedupFirst l).Nodup
  | [] => List.nodup_nil
  | x :: xs => by
    simp only [dedupFirst]
    refine List.Nodup.cons ?_ ((nodup_dedupFirst xs).filter _)
    intro hx
    rcases List.mem_filter.mp hx with ⟨_, hne⟩
    exact (bne_iff_ne.mp hne) rfl

theorem toFinset_dedupFirst (l : List String) : (dedupFirst l).toFinset = l.toFinset := by
  ext a
  simp [List.mem_toFinset, mem_dedupFirst]

theorem sum_count_dedupFirst (l : List String) :
    ((dedupFirst l).map (fun v => l.count v)).sum = l.length := by
  calc ((dedupFirst l).map (fun v => l.count v)).sum
      = (dedupFirst l).toFinset.sum (fun v => l.count v) :=
        (List.sum_toFinset _ (nodup_dedupFirst l)).symm
    _ = l.toFinset.sum (fun v => l.count v) := by rw [toFinset_dedupFirst]
    _ = l.length := List.sum_toFinset_count_eq_length l

theorem init_le_foldl_max : ∀ (l : List Nat) (a : Nat), a ≤ l.foldl max a
  | [], _ => Nat.le_refl _
  | x :: xs, a =>
    Nat.le_trans (Nat.le_max_left a x) (init_le_foldl_max xs (max a x))

theorem le_foldl_max : ∀ (l : List Nat) (a x : Nat), x ∈ l → x ≤ l.foldl max a
  | x :: xs, a, y, hy => by
    rcases List.mem_cons.mp hy with rfl | hy
    · exact Nat.le_trans (Nat.le_max_right a y) (init_le_foldl_max xs (max a y))
    · exact le_foldl_max xs (max a x) y hy

theorem foldl_max_mem : ∀ (l : List Nat) (a : Nat), l.foldl max a = a ∨ l.foldl max a ∈ l
  | [], _ => Or.inl rfl
  | x :: xs, a => by
    rcases foldl_max_mem xs (max a x) with h | h
    · rcases max_choice a x with hm | hm
      · exact Or.inl (by simp only [List.foldl_cons]; rw [h, hm])
      · refine Or.inr ?_
        simp only [List.foldl_cons]
        rw [h, hm]
        exact List.mem_cons_self x xs
    · exact Or.inr (List.mem_cons_of_mem x (by simpa using h))

theorem lexLe_refl : ∀ (s : List Char), lexLe s s = true
  | [] => rfl
  | a :: s => by simp [lexLe, lexLe_refl s]

theorem lexLe_total : ∀ (s t : List Char), lexLe s t = true ∨ lexLe t s = true
  | [], _ => Or.inl rfl
  | _ :: _, [] => Or.inr rfl
  | a :: s, b :: t => by
    rcases Nat.lt_trichotomy a.toNat b.toNat with h | h | h
    · exact Or.inl (by simp [lexLe, h])
    · rcases lexLe_total s t with hs | hs
      · exact Or.inl (by simp [lexLe, h, Nat.lt_irrefl, hs])
      · exact Or.inr (by simp [lexLe, h, Nat.lt_irrefl, hs])
    · exact Or.inr (by simp [lexLe, h])

theorem lexLe_trans : ∀ {s t u : List Char},
    lexLe s t = true → lexLe t u = true → lexLe s u = true
  | [], _, _, _, _ => rfl
  | a :: s, [], u, h1, _ => by simp [lexLe] at h1
  | a :: s, b :: t, [], _, h2 => by simp [lexLe] at h2
  | a :: s, b :: t, c :: u, h1, h2 => by
    rcases Nat.lt_trichotomy a.toNat b.toNat with hab | hab | hab
    · rcases Nat.lt_trichotomy b.toNat c.toNat with hbc | hbc | hbc
      · exact by simp [lexLe, Nat.lt_trans hab hbc]
      · exact by simp [lexLe, hbc ▸ hab]
      · exact absurd h2 (by simp [lexLe, hbc, Nat.lt_asymm hbc])
    · rcases Nat.lt_trichotomy b.toNat c.toNat with hbc | hbc | hbc
      · exact by simp [lexLe, hab ▸ hbc]
      · have h1' : lexLe s t = true := by
          simpa [lexLe, hab, Nat.lt_irrefl] using h1
        have h2' : lexLe t u = true := by
          simpa [lexLe, hbc, Nat.lt_irrefl] using h2
        have hac : a.toNat = c.toNat := hab.trans hbc
        simp [lexLe, hac, Nat.lt_irrefl, lexLe_trans h1' h2']
      · exact absurd h2 (by simp [lexLe, hbc, Nat.lt_asymm hbc])
    · exact absurd h1 (by simp [lexLe, hab, Nat.lt_asymm hab])

theorem strLe_isTotal : IsTotal String (fun a b => strLe a b = true) :=
  ⟨fun a b => lexLe_total a.data b.data⟩

theorem strLe_isTrans : IsTrans String (fun a b => strLe a b = true) :=
  ⟨fun _ _ _ h1 h2 => lexLe_trans h1 h2⟩

theorem abs_round2_sub (x : ℚ) : |round2 x - x| ≤ 1 / 200 := by
  have h : |x * 100 - (round (x * 100) : ℚ)| ≤ 1 / 2 := abs_sub_round (x * 100)
  have he : round2 x - x = ((round (x * 100) : ℚ) - x * 100) / 100 := by
    unfold round2
    ring
  rw [he, abs_div, abs_sub_comm]
  have h100 : |(100 : ℚ)| = 100 := by norm_num
  rw [h100]
  linarith

theorem sum_map_round2_close (xs : List ℚ) :
    |(xs.map round2).sum - xs.sum| ≤ (xs.length : ℚ) * (1 / 200) := by
  induction xs with
  | nil => simp
  | cons x xs ih =>
    simp only [List.map_cons, List.sum_cons, List.length_cons]
    have he : round2 x + (xs.map round2).sum - (x + xs.sum)
        = (round2 x - x) + ((xs.map round2).sum - xs.sum) := by ring
    rw [he]
    calc |(round2 x - x) + ((xs.map round2).sum - xs.sum)|
        ≤ |round2 x - x| + |(xs.map round2).sum - xs.sum| := abs_add _ _
      _ ≤ 1 / 200 + (xs.length : ℚ) * (1 / 200) :=
          add_le_add (abs_round2_sub x) ih
      _ = ((xs.length + 1 : ℕ) : ℚ) * (1 / 200) := by push_cast; ring

theorem filterByField_pos {D : Dataset} {f v : String} (h : v ≠ "All" ∧ f ∈ D.cols) :
    filterByField D f v =
      { cols := D.cols, rows := D.rows.filter (fieldPred D.cols f v) } := by
  unfold filterByField
  rw [if_pos h]

theorem filterByField_neg {D : Dataset} {f v : String} (h : ¬(v ≠ "All" ∧ f ∈ D.cols)) :
    filterByField D f v = D := by
  unfold filterByField
  rw [if_neg h]

theorem filterByField_swap (E : Dataset) (f1 v1 f2 v2 : String) :
    filterByField (filterByField E f1 v1) f2 v2 =
      filterByField (filterByField E f2 v2) f1 v1 := by
  by_cases h1 : v1 ≠ "All" ∧ f1 ∈ E.cols <;>
    by_cases h2 : v2 ≠ "All" ∧ f2 ∈ E.cols
  · rw [filterByField_pos h1, filterByField_pos h2,
      filterByField_pos (D := { cols := E.cols, rows := E.rows.filter (fieldPred E.cols f1 v1) }) h2,
      filterByField_pos (D := { cols := E.cols, rows := E.rows.filter (fieldPred E.cols f2 v2) }) h1]
    simp only [Dataset.mk.injEq, true_and]
    rw [List.filter_filter, List.filter_filter]
    congr 1
    funext r
    exact Bool.and_comm _ _
  · rw [filterByField_neg h2, filterByField_pos h1,
      filterByField_neg (D := { cols := E.cols, rows := E.rows.filter (fieldPred E.cols f1 v1) }) h2]
  · rw [filterByField_neg h1, filterByField_pos h2,
      filterByField_neg (D := { cols := E.cols, rows := E.rows.filter (fieldPred E.cols f2 v2) }) h1]
  · rw [filterByField_neg h1, filterByField_neg h2, filterByField_neg h1]

theorem splitOnChar_ne_nil (c : Char) : ∀ s, splitOnChar c s ≠ []
  | [] => by simp [splitOnChar]
  | a :: t => by
    by_cases hac : a = c
    · simp [splitOnChar, hac]
    · simp only [splitOnChar, if_neg hac]
      cases h : splitOnChar c t <;> simp

theorem splitOnChar_no_sep (c : Char) : ∀ (s : List Char), c ∉ s → splitOnChar c s = [s]
  | [], _ => rfl
  | a :: t, h => by
    have hac : ¬a = c := fun e => h (e ▸ List.mem_cons_self a t)
    have ht : c ∉ t := fun e => h (List.mem_cons_of_mem a e)
    simp only [splitOnChar, if_neg hac, splitOnChar_no_sep c t ht]

theorem splitOnChar_append_sep (c : Char) : ∀ (x t : List Char), c ∉ x →
    splitOnChar c (x ++ c :: t) = x :: splitOnChar c t
  | [], t, _ => by simp [splitOnChar]
  | a :: x, t, h => by
    have hac : ¬a = c := fun e => h (e ▸ List.mem_cons_self a x)
    have hx : c ∉ x := fun e => h (List.mem_cons_of_mem a e)
    have ih := splitOnChar_append_sep c x t hx
    simp only [List.cons_append, splitOnChar, if_neg hac, List.append_eq, ih]

theorem splitOnChar_flatten (c : Char) : ∀ (ls : List (List Char)),
    (∀ l ∈ ls, c ∉ l) →
    splitOnChar c ((ls.map (fun l => l ++ [c])).flatten) = ls ++ [[]]
  | [], _ => rfl
  | l :: ls, h => by
    simp only [List.map_cons, List.flatten_cons]
    have he : (l ++ [c]) ++ (ls.map (fun l => l ++ [c])).flatten
        = l ++ (c :: (ls.map (fun l => l ++ [c])).flatten) := by
      rw [List.append_assoc, List.singleton_append]
    rw [he, splitOnChar_append_sep c l _ (h l (List.mem_cons_self l ls)),
      splitOnChar_flatten c ls (fun x hx => h x (List.mem_cons_of_mem _ hx))]
    rfl

theorem splitOnChar_intercalateChar (c : Char) : ∀ (xs : List (List Char)),
    xs ≠ [] → (∀ x ∈ xs, c ∉ x) →
    splitOnChar c (intercalateChar c xs) = xs
  | [], h, _ => absurd rfl h
  | [x], _, h => splitOnChar_no_sep c x (h x (List.mem_cons_self x []))
  | x :: y :: ys, _, h => by
    show splitOnChar c (x ++ c :: intercalateChar c (y :: ys)) = _
    rw [splitOnChar_append_sep c x _ (h x (List.mem_cons_self x _)),
      splitOnChar_intercalateChar c (y :: ys) (by simp)
        (fun z hz => h z (List.mem_cons_of_mem _ hz))]

theorem mem_intercalateChar (c d : Char) : ∀ (xs : List (List Char)),
    d ∈ intercalateChar c xs → d = c ∨ ∃ x ∈ xs, d ∈ x
  | [], h => by simp [intercalateChar] at h
  | [x], h => Or.inr ⟨x, List.mem_cons_self x [], by simpa [intercalateChar] using h⟩
  | x :: y :: ys, h => by
    have he : intercalateChar c (x :: y :: ys) = x ++ c :: intercalateChar c (y :: ys) := rfl
    rw [he] at h
    rcases List.mem_append.mp h with hx | hx
    · exact Or.inr ⟨x, List.mem_cons_self x _, hx⟩
    · rcases List.mem_cons.mp hx with rfl | hx
      · exact Or.inl rfl
      · rcases mem_intercalateChar c d (y :: ys) hx with h1 | ⟨z, hz, hdz⟩
        · exact Or.inl h1
        · exact Or.inr ⟨z, List.mem_cons_of_mem _ hz, hdz⟩

theorem csvField_of_plain {s : List Char} (h : csvPlain s = true) : csvField s = s := by
  have hq : needsQuote s = false := by
    simp only [csvPlain, List.all_eq_true] at h
    apply List.any_eq_false.mpr
    intro c hc
    have := h c hc
    simpa using this
  simp [csvField, hq]

theorem not_mem_of_plain {s : List Char} (h : csvPlain s = true) :
    ',' ∉ s ∧ '"' ∉ s ∧ '\n' ∉ s := by
  simp only [csvPlain, List.all_eq_true] at h
  refine ⟨fun hc => ?_, fun hc => ?_, fun hc => ?_⟩ <;>
    · have := h _ hc
      simp at this

theorem newline_not_mem_csvLine {fields : List (List Char)}
    (h : ∀ x ∈ fields, csvPlain x = true) : '\n' ∉ csvLine fields := by
  intro hmem
  unfold csvLine at hmem
  rcases mem_intercalateChar ',' '\n' _ hmem with h1 | ⟨x, hx, hdx⟩
  · exact absurd h1 (by decide)
  · rcases List.mem_map.mp hx with ⟨y, hy, rfl⟩
    rw [csvField_of_plain (h y hy)] at hdx
    exact (not_mem_of_plain (h y hy)).2.2 hdx

theorem splitOnChar_csvLine {fields : List (List Char)} (hne : fields ≠ [])
    (hplain : ∀ x ∈ fields, csvPlain x = true) :
    splitOnChar ',' (csvLine fields) = fields := by
  unfold csvLine
  have hm : fields.map csvField = fields := by
    rw [List.map_congr_left (fun x hx => csvField_of_plain (hplain x hx))]
    exact List.map_id fields
  rw [hm]
  exact splitOnChar_intercalateChar ',' fields hne
    (fun x hx => (not_mem_of_plain (hplain x hx)).1)

/-! ### Claim theorems -/

/-- C4: filtering with the empty query string returns the dataset unchanged,
same rows in the same order (`if search_text:` is falsy on the empty
string, so the mask is never built). -/
theorem filterByText_empty_query (D : Dataset) : filterByText D "" = D := by
  simp [filterByText]

/-- C2: the claim that no query-engine operation ever raises fails on the
time-span metric. On a well-formed dataset with a `year` column and zero
rows, `data['year'].min()` is `NaN` and `int(NaN)` raises `ValueError`
instead of producing a degraded result; the embedding records the raise as
an `Except.error`. -/
theorem timeSpan_raises_on_empty_year :
    timeSpanMetric { cols := ["year"], rows := [] } =
      Except.error "cannot convert float NaN to integer" := rfl

/-- C5: the equality filter returns the dataset unchanged when the field is
absent or the value is the `All` sentinel, and otherwise keeps exactly the
rows whose cell in that field equals the value, order-preserving. -/
theorem filterByField_spec (D : Dataset) (f v : String) :
    ((f ∉ D.cols ∨ v = "All") → filterByField D f v = D) ∧
    (f ∈ D.cols → v ≠ "All" →
      (filterByField D f v).cols = D.cols ∧
      (filterByField D f v).rows.Sublist D.rows ∧
      ∀ r, r ∈ (filterByField D f v).rows ↔
        r ∈ D.rows ∧ cellAt D.cols r f = Val.str v) := by
  constructor
  · intro h
    apply filterByField_neg
    rintro ⟨hv, hf⟩
    rcases h with h | h
    · exact h hf
    · exact hv h
  · intro hf hv
    rw [filterByField_pos ⟨hv, hf⟩]
    refine ⟨rfl, List.filter_sublist _, ?_⟩
    intro r
    simp [List.mem_filter, fieldPred]

/-- C5 witness: on a two-row gender dataset the `All` sentinel is the
identity, and filtering on `Male` keeps the `Male` row. -/
theorem filterByField_spec_witness :
    filterByField { cols := ["gender"], rows := [[Val.str "Male"], [Val.str "Female"]] }
      "gender" "All" =
      { cols := ["gender"], rows := [[Val.str "Male"], [Val.str "Female"]] } ∧
    [Val.str "Male"] ∈
      (filterByField { cols := ["gender"], rows := [[Val.str "Male"], [Val.str "Female"]] }
        "gender" "Male").rows := by
  constructor
  · exact (filterByField_spec
      { cols := ["gender"], rows := [[Val.str "Male"], [Val.str "Female"]] }
      "gender" "All").1 (Or.inr rfl)
  · exact (((filterByField_spec
      { cols := ["gender"], rows := [[Val.str "Male"], [Val.str "Female"]] }
      "gender" "Male").2 (by decide) (by decide)).2.2 [Val.str "Male"]).mpr
      ⟨by decide, by decide⟩

/-- C10: a row whose cell in the filtered field is missing is never kept by
the equality filter, for any non-sentinel value (pandas `NaN` compares
unequal to every string). -/
theorem filterByField_missing_excluded (D : Dataset) (f v : String) (r : List Val)
    (hf : f ∈ D.cols) (hv : v ≠ "All") (hna : cellAt D.cols r f = Val.na) :
    r ∉ (filterByField D f v).rows := by
  rw [filterByField_pos ⟨hv, hf⟩]
  intro hr
  have hp := (List.mem_filter.mp hr).2
  simp [fieldPred, hna] at hp

/-- C10 witness: the all-missing row is dropped by a concrete gender
filter. -/
theorem filterByField_missing_excluded_witness :
    [Val.na] ∉
      (filterByField { cols := ["gender"], rows := [[Val.na], [Val.str "Male"]] }
        "gender" "Male").rows :=
  filterByField_missing_excluded
    { cols := ["gender"], rows := [[Val.na], [Val.str "Male"]] }
    "gender" "Male" [Val.na] (by decide) (by decide) (by decide)

/-- C6: after the text filter, the two per-field equality filters commute:
applying (f1, v1) then (f2, v2) equals applying (f2, v2) then (f1, v1). -/
theorem applyFilters_field_comm (D : Dataset) (q f1 v1 f2 v2 : String) :
    applyFilters D q [(f1, v1), (f2, v2)] = applyFilters D q [(f2, v2), (f1, v1)] := by
  simp only [applyFilters, List.foldl_cons, List.foldl_nil]
  exact filterByField_swap (filterByText D q) f1 v1 f2 v2

/-- C3 counterexample: on a dataset whose single row has a missing `gender`
cell, the query `nan` (no column's non-missing text contains it) still
returns the row, because `astype(str)` renders the missing cell as the text
`nan`. The claim says a missing value never matches on its column. -/
theorem filterByText_missing_matches_nan :
    (filterByText { cols := ["name", "gender"], rows := [[Val.str "Claudia", Val.na]] }
      "nan").rows = [[Val.str "Claudia", Val.na]] ∧
    rowMatchesTextSpec "nan" [Val.str "Claudia", Val.na] = false := by
  constructor <;> decide

/-- C3 as amended: for a non-empty query without regex metacharacters, the
text filter keeps exactly the rows in which some cell, converted to text
with missing cells rendering as `nan`, contains the query as a
case-insensitive substring, order-preserving. -/
theorem filterByText_spec (D : Dataset) (q : String) (hq : q ≠ "")
    (_hlit : regexLiteral q = true) :
    (filterByText D q).cols = D.cols ∧
    (filterByText D q).rows.Sublist D.rows ∧
    ∀ r, r ∈ (filterByText D q).rows ↔
      r ∈ D.rows ∧ ∃ v ∈ r, strContainsCI (Val.toText v) q = true := by
  unfold filterByText
  rw [if_neg hq]
  refine ⟨rfl, List.filter_sublist _, ?_⟩
  intro r
  simp [List.mem_filter, rowMatchesText, List.any_eq_true]

/-- C3 witness: searching `julia` keeps the row containing `Julia Felix`
and drops the others. -/
theorem filterByText_spec_witness :
    [Val.str "Julia Felix", Val.int 80] ∈
      (filterByText
        { cols := ["name", "year"],
          rows := [[Val.str "Julia Felix", Val.int 80], [Val.str "Marcus", Val.int 120]] }
        "julia").rows ∧
    [Val.str "Marcus", Val.int 120] ∉
      (filterByText
        { cols := ["name", "year"],
          rows := [[Val.str "Julia Felix", Val.int 80], [Val.str "Marcus", Val.int 120]] }
        "julia").rows := by
  have h := filterByText_spec
    { cols := ["name", "year"],
      rows := [[Val.str "Julia Felix", Val.int 80], [Val.str "Marcus", Val.int 120]] }
    "julia" (by decide) (by decide)
  constructor
  · exact (h.2.2 [Val.str "Julia Felix", Val.int 80]).mpr
      ⟨by decide, Val.str "Julia Felix", by decide, by decide⟩
  · intro hmem
    rcases (h.2.2 [Val.str "Marcus", Val.int 120]).mp hmem with ⟨-, v, hv, hc⟩
    have hv2 : v = Val.str "Marcus" ∨ v = Val.int 120 := by simpa using hv
    rcases hv2 with rfl | rfl
    · exact absurd hc (by decide)
    · exact absurd hc (by decide)

/-- C1 counterexample: with genders `Male` then `Female`, each occurring
once, the first tied value in row order is `Male`, but the metric returns
`Female`: pandas `mode()` sorts the tied values and `[0]` takes the
least. -/
theorem mostCommonGender_not_first_encountered :
    mostCommonGender { cols := ["gender"], rows := [[Val.str "Male"], [Val.str "Female"]] }
      = "Female" ∧
    firstMaxByRowOrder { cols := ["gender"], rows := [[Val.str "Male"], [Val.str "Female"]] }
      = some "Male" ∧
    "Female" ≠ "Male" :=
  ⟨by decide, by decide, by decide⟩

/-- C1 as amended: when the `gender` column is present with at least one
non-missing value, the metric returns a value of maximal frequency and,
among the values tied for maximal frequency, the lexicographically least
one (code-point order) rather than the first encountered in row order. -/
theorem mostCommonGender_least_tied_mode (D : Dataset)
    (hcol : "gender" ∈ D.cols) (hne : strValues D "gender" ≠ []) :
    mostCommonGender D ∈ strValues D "gender" ∧
    (∀ v ∈ strValues D "gender",
      (strValues D "gender").count v ≤
        (strValues D "gender").count (mostCommonGender D)) ∧
    ∀ v ∈ strValues D "gender",
      (strValues D "gender").count v =
        (strValues D "gender").count (mostCommonGender D) →
      strLe (mostCommonGender D) v = true := by
  set l := strValues D "gender" with hl
  obtain ⟨x, hx⟩ := List.exists_mem_of_ne_nil l hne
  have hattain : ∃ v ∈ dedupFirst l, l.count v = maxCount l := by
    rcases foldl_max_mem ((dedupFirst l).map (fun v => l.count v)) 0 with h0 | hmem
    · exfalso
      have hxd : x ∈ dedupFirst l := mem_dedupFirst.mpr hx
      have hcx : l.count x ≤ maxCount l :=
        le_foldl_max _ 0 _ (List.mem_map_of_mem _ hxd)
      have hpos : 0 < l.count x := List.count_pos_iff.mpr hx
      have hz : maxCount l = 0 := h0
      omega
    · rcases List.mem_map.mp hmem with ⟨v, hv, hveq⟩
      exact ⟨v, hv, hveq⟩
  obtain ⟨v0, hv0d, hv0c⟩ := hattain
  have hv0f : v0 ∈ (dedupFirst l).filter (fun v => l.count v == maxCount l) :=
    List.mem_filter.mpr ⟨hv0d, by simp [hv0c]⟩
  have hperm : List.Perm (modeSorted l)
      ((dedupFirst l).filter (fun v => l.count v == maxCount l)) :=
    List.perm_insertionSort _ _
  have hmodne : modeSorted l ≠ [] := by
    intro hnil
    have hv0m : v0 ∈ modeSorted l := hperm.mem_iff.mpr hv0f
    rw [hnil] at hv0m
    exact absurd hv0m (List.not_mem_nil v0)
  obtain ⟨g, rest, hgr⟩ := List.exists_cons_of_ne_nil hmodne
  have hmcg : mostCommonGender D = g := by
    unfold mostCommonGender
    rw [if_pos hcol, ← hl, hgr]
    rfl
  rw [hmcg]
  have hgm : g ∈ modeSorted l := by
    rw [hgr]
    exact List.mem_cons_self g rest
  rcases List.mem_filter.mp (hperm.mem_iff.mp hgm) with ⟨hgd, hgc⟩
  have hgc2 : l.count g = maxCount l := by simpa using hgc
  refine ⟨mem_dedupFirst.mp hgd, ?_, ?_⟩
  · intro v hv
    rw [hgc2]
    exact le_foldl_max _ 0 _ (List.mem_map_of_mem _ (mem_dedupFirst.mpr hv))
  · intro v hv hveq
    have hvf : v ∈ (dedupFirst l).filter (fun v => l.count v == maxCount l) :=
      List.mem_filter.mpr ⟨mem_dedupFirst.mpr hv, by simp [hveq, hgc2]⟩
    have hvm : v ∈ modeSorted l := hperm.mem_iff.mpr hvf
    rw [hgr] at hvm
    rcases List.mem_cons.mp hvm with rfl | hvrest
    · exact lexLe_refl v.data
    · have hsort : List.Sorted (fun a b => strLe a b = true) (modeSorted l) := by
        haveI := strLe_isTotal
        haveI := strLe_isTrans
        exact List.sorted_insertionSort _ _
      rw [hgr] at hsort
      exact List.rel_of_sorted_cons hsort v hvrest

/-- C1 witness: with two `Female` rows and one `Male` row the metric picks
`Female`, the unique most frequent value. -/
theorem mostCommonGender_least_tied_mode_witness :
    mostCommonGender
        { cols := ["gender"],
          rows := [[Val.str "Female"], [Val.str "Female"], [Val.str "Male"]] } ∈
      strValues
        { cols := ["gender"],
          rows := [[Val.str "Female"], [Val.str "Female"], [Val.str "Male"]] } "gender" ∧
    (∀ v ∈ strValues
        { cols := ["gender"],
          rows := [[Val.str "Female"], [Val.str "Female"], [Val.str "Male"]] } "gender",
      (strValues
        { cols := ["gender"],
          rows := [[Val.str "Female"], [Val.str "Female"], [Val.str "Male"]] } "gender").count v ≤
        (strValues
          { cols := ["gender"],
            rows := [[Val.str "Female"], [Val.str "Female"], [Val.str "Male"]] } "gender").count
          (mostCommonGender
            { cols := ["gender"],
              rows := [[Val.str "Female"], [Val.str "Female"], [Val.str "Male"]] })) ∧
    ∀ v ∈ strValues
        { cols := ["gender"],
          rows := [[Val.str "Female"], [Val.str "Female"], [Val.str "Male"]] } "gender",
      (strValues
        { cols := ["gender"],
          rows := [[Val.str "Female"], [Val.str "Female"], [Val.str "Male"]] } "gender").count v =
        (strValues
          { cols := ["gender"],
            rows := [[Val.str "Female"], [Val.str "Female"], [Val.str "Male"]] } "gender").count
          (mostCommonGender
            { cols := ["gender"],
              rows := [[Val.str "Female"], [Val.str "Female"], [Val.str "Male"]] }) →
      strLe
        (mostCommonGender
          { cols := ["gender"],
            rows := [[Val.str "Female"], [Val.str "Female"], [Val.str "Male"]] }) v = true :=
  mostCommonGender_least_tied_mode
    { cols := ["gender"], rows := [[Val.str "Female"], [Val.str "Female"], [Val.str "Male"]] }
    (by decide) (by decide)

/-- C7 counterexample: on the zero-row view with a `case` column, the field
vacuously has no missing values, yet the percentage column is empty and
sums to 0 rather than 100, with no rounding slack available since the
aggregation table has no entries. -/
theorem percentages_zero_on_empty_view :
    (strValues { cols := ["case"], rows := [] } "case").length =
      ({ cols := ["case"], rows := [] } : Dataset).rows.length ∧
    (percentages { cols := ["case"], rows := [] } "case").sum = 0 ∧
    (valueCounts { cols := ["case"], rows := [] } "case").length = 0 :=
  ⟨rfl, by decide, rfl⟩

/-- C7 as amended: for a field present in the view, the per-value counts of
the aggregation sum to the number of non-missing values of the field; and
when the view is non-empty and the field has no missing value, the rounded
percentages sum to 100 up to half a unit in the last printed place per
table entry. -/
theorem categoricalAggregate_sums (D : Dataset) (f : String) (_hf : f ∈ D.cols) :
    ((valueCounts D f).map Prod.snd).sum = (strValues D f).length ∧
    (D.rows ≠ [] → (strValues D f).length = D.rows.length →
      |(percentages D f).sum - 100| ≤ ((valueCounts D f).length : ℚ) / 200) := by
  have hperm : List.Perm (valueCounts D f)
      ((dedupFirst (strValues D f)).map (fun v => (v, (strValues D f).count v))) :=
    List.perm_insertionSort _ _
  have hsnd : ((valueCounts D f).map Prod.snd).sum = (strValues D f).length := by
    have h1 : ((valueCounts D f).map Prod.snd).sum =
        (((dedupFirst (strValues D f)).map
          (fun v => (v, (strValues D f).count v))).map Prod.snd).sum :=
      (hperm.map Prod.snd).sum_eq
    rw [h1, List.map_map]
    exact sum_count_dedupFirst (strValues D f)
  refine ⟨hsnd, ?_⟩
  intro hrows hfull
  have hN : (D.rows.length : ℚ) ≠ 0 := by
    have h0 : D.rows.length ≠ 0 := by
      intro h0
      exact hrows (List.length_eq_zero.mp h0)
    exact_mod_cast h0
  set xs : List ℚ :=
    (valueCounts D f).map (fun p => (p.2 : ℚ) / (D.rows.length : ℚ) * 100) with hxs
  have hx : percentages D f = xs.map round2 := by
    rw [hxs, List.map_map]
    rfl
  have hsum : xs.sum = 100 := by
    have h2 : xs = (valueCounts D f).map
        (fun p => ((p.2 : ℚ)) * (100 / (D.rows.length : ℚ))) := by
      rw [hxs]
      exact List.map_congr_left (fun p _ => by ring)
    rw [h2, List.sum_map_mul_right]
    have h3 : ((valueCounts D f).map (fun p => ((p.2 : ℚ)))).sum
        = ((((valueCounts D f).map Prod.snd).sum : ℕ) : ℚ) := by
      rw [Nat.cast_list_sum ((valueCounts D f).map Prod.snd), List.map_map]
      rfl
    rw [h3, hsnd, hfull]
    field_simp
  have hclose := sum_map_round2_close xs
  have hlen : (xs.length : ℚ) = ((valueCounts D f).length : ℚ) := by
    rw [hxs, List.length_map]
  calc |(percentages D f).sum - 100|
      = |(xs.map round2).sum - xs.sum| := by rw [hx, hsum]
    _ ≤ (xs.length : ℚ) * (1 / 200) := hclose
    _ = ((valueCounts D f).length : ℚ) / 200 := by
        rw [hlen]
        ring

/-- C7 witness: on a three-row view with `case` values `nom`, `acc`, `nom`
the counts sum to 3 and the rounded percentages sum to 100 within the
bound. -/
theorem categoricalAggregate_sums_witness :
    ((valueCounts { cols := ["case"], rows := [[Val.str "nom"], [Val.str "acc"], [Val.str "nom"]] }
        "case").map Prod.snd).sum =
      (strValues { cols := ["case"], rows := [[Val.str "nom"], [Val.str "acc"], [Val.str "nom"]] }
        "case").length ∧
    |(percentages { cols := ["case"], rows := [[Val.str "nom"], [Val.str "acc"], [Val.str "nom"]] }
        "case").sum - 100| ≤
      ((valueCounts { cols := ["case"], rows := [[Val.str "nom"], [Val.str "acc"], [Val.str "nom"]] }
          "case").length : ℚ) / 200 := by
  have h := categoricalAggregate_sums
    { cols := ["case"], rows := [[Val.str "nom"], [Val.str "acc"], [Val.str "nom"]] }
    "case" (by decide)
  exact ⟨h.1, h.2 (by decide) (by decide)⟩

/-- C9: for a well-formed dataset with at least one column, whose column
names and rendered cells are CSV-plain, the CSV text splits on newlines
into the header line first and then exactly one line per row in order (no
index column anywhere), and each line splits on commas into exactly the
column names, respectively the row's cell renderings, in the dataset's
column order. -/
theorem toCsv_spec (D : Dataset) (hwf : D.Wf) (hc : D.cols ≠ [])
    (hcols : ∀ c ∈ D.cols, csvPlain c.data = true)
    (hcells : ∀ r ∈ D.rows, ∀ v ∈ r, csvPlain (valCsv v) = true) :
    splitOnChar '\n' (toCsv D) =
      (csvLine (D.cols.map String.data) ::
        D.rows.map (fun r => csvLine (r.map valCsv))) ++ [[]] ∧
    splitOnChar ',' (csvLine (D.cols.map String.data)) = D.cols.map String.data ∧
    ∀ r ∈ D.rows, splitOnChar ',' (csvLine (r.map valCsv)) = r.map valCsv := by
  have hcolfields : ∀ x ∈ D.cols.map String.data, csvPlain x = true := by
    intro x hx
    rcases List.mem_map.mp hx with ⟨c, hc2, rfl⟩
    exact hcols c hc2
  have hrowfields : ∀ r ∈ D.rows, ∀ x ∈ r.map valCsv, csvPlain x = true := by
    intro r hr x hx
    rcases List.mem_map.mp hx with ⟨v, hv, rfl⟩
    exact hcells r hr v hv
  refine ⟨?_, ?_, ?_⟩
  · unfold toCsv
    have hlines : ∀ l ∈ csvLines D, '\n' ∉ l := by
      intro l hl
      unfold csvLines at hl
      rcases List.mem_cons.mp hl with rfl | hl
      · exact newline_not_mem_csvLine hcolfields
      · rcases List.mem_map.mp hl with ⟨r, hr, rfl⟩
        exact newline_not_mem_csvLine (hrowfields r hr)
    rw [splitOnChar_flatten '\n' (csvLines D) hlines]
    rfl
  · exact splitOnChar_csvLine (by simpa using hc) hcolfields
  · intro r hr
    have hrne : r.map valCsv ≠ [] := by
      have hr0 : r ≠ [] := by
        intro h0
        apply hc
        have hlen := hwf r hr
        rw [h0] at hlen
        exact List.length_eq_zero.mp hlen.symm
      simpa using hr0
    exact splitOnChar_csvLine hrne (hrowfields r hr)

/-- C9 witness: the one-row dataset with columns `name`, `year` serializes
to a header line and one data line, each parsing back to its fields. -/
theorem toCsv_spec_witness :
    splitOnChar '\n'
        (toCsv { cols := ["name", "year"], rows := [[Val.str "Julia", Val.int 80]] }) =
      (csvLine
          (({ cols := ["name", "year"], rows := [[Val.str "Julia", Val.int 80]] } :
            Dataset).cols.map String.data) ::
        ({ cols := ["name", "year"], rows := [[Val.str "Julia", Val.int 80]] } :
          Dataset).rows.map (fun r => csvLine (r.map valCsv))) ++ [[]] ∧
    splitOnChar ','
        (csvLine
          (({ cols := ["name", "year"], rows := [[Val.str "Julia", Val.int 80]] } :
            Dataset).cols.map String.data)) =
      ({ cols := ["name", "year"], rows := [[Val.str "Julia", Val.int 80]] } :
        Dataset).cols.map String.data ∧
    ∀ r ∈ ({ cols := ["name", "year"], rows := [[Val.str "Julia", Val.int 80]] } :
        Dataset).rows,
      splitOnChar ',' (csvLine (r.map valCsv)) = r.map valCsv :=
  toCsv_spec { cols := ["name", "year"], rows := [[Val.str "Julia", Val.int 80]] }
    (by decide) (by decide) (by decide) (by decide)
